import Mathlib

/-!
Verification of the encrypted keystore engine in `src/lib/utils/key.js`
(Web3 secret-storage V3 format): key generation (`GenKey`), encryption
(`EncryptKey`) and decryption/verification (`DecryptKey`, `DecryptKeyV3`).

Bytes are modelled as natural numbers below 256 and buffers as `List Nat`.
The external cryptographic primitives (scrypt, keccak/sha3, the AES-128-CTR
keystream) are vetted collaborators outside this repository; the engine is
parameterised over them through the `Prims` bundle, exactly as the source
code is parameterised over the `scrypt`, `ethereumjs-util` and node
`crypto` modules.  The CTR cipher is modelled faithfully as
keystream-XOR, which is all `aes-128-ctr` is once the keystream function
is abstract.
-/

namespace Keystore

/-- Lower-case hex digit for a value below 16, as node's `toString('hex')`
produces. -/
def hexDigit (n : Nat) : Char :=
  if n < 10 then Char.ofNat (48 + n) else Char.ofNat (87 + n)

/-- Numeric value of a lower-case hex digit (inverse of `hexDigit`). -/
def hexDigitVal (c : Char) : Nat :=
  if 97 ≤ c.toNat then c.toNat - 87 else c.toNat - 48

/-- Two-digit lower-case hex rendering of one byte. -/
def byteToHex (b : Nat) : List Char :=
  [hexDigit (b / 16), hexDigit (b % 16)]

/-- Hex rendering of a byte buffer, one byte at a time. -/
def hexEncodeList : List Nat → List Char
  | [] => []
  | b :: bs => byteToHex b ++ hexEncodeList bs

/-- `Buffer.toString('hex')`: lower-case hex string of a byte buffer. -/
def hexEncode (bs : List Nat) : String :=
  String.mk (hexEncodeList bs)

/-- Decode a hex character list two characters per byte. -/
def hexDecodeAux : List Char → List Nat
  | c1 :: c2 :: rest => (hexDigitVal c1 * 16 + hexDigitVal c2) :: hexDecodeAux rest
  | _ => []

/-- `new Buffer(s, 'hex')`: byte buffer decoded from a hex string. -/
def hexDecode (s : String) : List Nat :=
  hexDecodeAux s.data

/-- JavaScript `Buffer.slice(start, end)`. -/
def jsSlice (bs : List Nat) (s e : Nat) : List Nat :=
  (bs.take e).drop s

/-- Flip bit `b` of the byte at index `j`. -/
def flipBit (bs : List Nat) (j b : Nat) : List Nat :=
  bs.set j (Nat.xor (bs.getD j 0) (2 ^ b))

/-- The external cryptographic primitives the engine is linked against:
`scrypt.hashSync` (`kdf passwd salt n r p dklen`), `ethutil.sha3`
(`hash`), and the AES-128-CTR keystream (`stream key iv len`, the first
`len` keystream bytes under the given key and initialization vector).
The two propositional fields record that a CTR keystream has exactly the
requested length and consists of bytes. -/
structure Prims where
  kdf : String → List Nat → Nat → Nat → Nat → Nat → List Nat
  hash : List Nat → List Nat
  stream : List Nat → List Nat → Nat → List Nat
  stream_len : ∀ key iv n, (stream key iv n).length = n
  stream_lt : ∀ key iv n, ∀ b ∈ stream key iv n, b < 256

/-- `crypto.createCipheriv('aes-128-ctr', key, iv)` applied to `data`:
XOR of the data with the keystream.  In CTR mode encryption and
decryption are the same operation. -/
def aes128ctr (P : Prims) (key iv data : List Nat) : List Nat :=
  List.zipWith Nat.xor data (P.stream key iv data.length)

/-- The `{prvkey, pubkey, addr}` object returned by `GenKey`. -/
structure KeyPair where
  prvkey : List Nat
  pubkey : List Nat
  addr : List Nat
  deriving DecidableEq

/-- The `kdfparams` block of a keystore record. -/
structure KdfParams where
  dklen : Nat
  n : Nat
  p : Nat
  r : Nat
  salt : String
  deriving DecidableEq

/-- The `cipherparams` block of a keystore record. -/
structure CipherParams where
  iv : String
  deriving DecidableEq

/-- The `crypto` block of a keystore record. -/
structure CryptoJson where
  cipher : String
  ciphertext : String
  cipherparams : CipherParams
  kdf : String
  kdfparams : KdfParams
  mac : String
  deriving DecidableEq

/-- A V3 keystore record. -/
structure KeystoreRecord where
  address : String
  crypto : CryptoJson
  version : Nat
  deriving DecidableEq

def ScryptN : Nat := 2 ^ 18
def ScryptP : Nat := 1
def ScryptR : Nat := 8
def ScryptDKLen : Nat := 32

/-- `EncryptKey(key, passwd)` from `src/lib/utils/key.js`.  The two
`crypto.randomBytes` draws (the 32-byte salt and the 16-byte iv) are made
explicit arguments, so that the function is the deterministic core of the
source and the entropy source stays external. -/
def EncryptKey (P : Prims) (key : KeyPair) (passwd : String)
    (salt iv : List Nat) : KeystoreRecord :=
  let dpasswd := P.kdf passwd salt ScryptN ScryptR ScryptP ScryptDKLen
  let epasswd := jsSlice dpasswd 0 16
  let fpasswd := jsSlice dpasswd 16 32
  let ciphertext := hexEncode (aes128ctr P epasswd iv key.prvkey)
  let mac := P.hash (fpasswd ++ hexDecode ciphertext)
  { address := hexEncode key.addr
    crypto :=
      { cipher := "aes-128-ctr"
        ciphertext := ciphertext
        cipherparams := { iv := hexEncode iv }
        kdf := "scrypt"
        kdfparams :=
          { dklen := ScryptDKLen
            n := ScryptN
            p := ScryptP
            r := ScryptR
            salt := hexEncode salt }
        mac := hexEncode mac }
    version := 3 }

/-- The error message of the mac-mismatch branch of `DecryptKeyV3`. -/
def authFailed : String := "could not decrypt key with given passphrase"

/-- Which external primitives a decryption run has invoked, in order. -/
inductive Prim where
  | kdf
  | hash
  | cipher
  deriving DecidableEq

/-- The derived key `DecryptKeyV3` recomputes from the stored salt and
stored cost parameters. -/
def decryptDk (P : Prims) (c : CryptoJson) (passwd : String) : List Nat :=
  P.kdf passwd (hexDecode c.kdfparams.salt)
    c.kdfparams.n c.kdfparams.r c.kdfparams.p c.kdfparams.dklen

/-- The `calculatedMAC` of `DecryptKeyV3`:
`ethutil.sha3(Buffer.concat([dpasswd.slice(16,32), ciphertext])).toString('hex')`. -/
def recomputedMac (P : Prims) (c : CryptoJson) (passwd : String) : String :=
  hexEncode (P.hash (jsSlice (decryptDk P c passwd) 16 32 ++ hexDecode c.ciphertext))

/-- `DecryptKeyV3(cryptoJSON, passwd)`, instrumented with the list of
external primitives it invokes.  Mirrors the source's control flow:
cipher-name check, kdf-name check, scrypt derivation, mac comparison,
and only then the cipher call. -/
def DecryptKeyV3T (P : Prims) (c : CryptoJson) (passwd : String) :
    Except String String × List Prim :=
  if c.cipher ≠ "aes-128-ctr" then
    (Except.error ("Cipher not support: " ++ c.cipher), [])
  else if c.kdf ≠ "scrypt" then
    (Except.error "only support scrypt", [])
  else if recomputedMac P c passwd ≠ c.mac then
    (Except.error authFailed, [Prim.kdf, Prim.hash])
  else
    (Except.ok (hexEncode (aes128ctr P (jsSlice (decryptDk P c passwd) 0 16)
        (hexDecode c.cipherparams.iv) (hexDecode c.ciphertext))),
      [Prim.kdf, Prim.hash, Prim.cipher])

/-- `DecryptKeyV3`: the thrown-or-returned result alone. -/
def DecryptKeyV3 (P : Prims) (c : CryptoJson) (passwd : String) :
    Except String String :=
  (DecryptKeyV3T P c passwd).1

/-- `DecryptKey(keyJsonStr, passwd)`, instrumented.  `JSON.parse` is the
host JavaScript engine's parser, passed in as `parse`; a parse failure is
its thrown `SyntaxError`.  The version gate `version && version == "3"`
collapses, over a numeric version field, to `version = 3`. -/
def DecryptKeyT (parse : String → Option KeystoreRecord) (P : Prims)
    (keyJsonStr passwd : String) : Except String String × List Prim :=
  match parse keyJsonStr with
  | none => (Except.error "SyntaxError: invalid JSON", [])
  | some keyJson =>
    if keyJson.version = 3 then DecryptKeyV3T P keyJson.crypto passwd
    else (Except.error "version must be 3", [])

/-- `DecryptKey`: the thrown-or-returned result alone. -/
def DecryptKey (parse : String → Option KeystoreRecord) (P : Prims)
    (keyJsonStr passwd : String) : Except String String :=
  (DecryptKeyT parse P keyJsonStr passwd).1

/-- A double-quoted JSON string literal (the fields never need escaping). -/
def jstr (s : String) : String := "\"" ++ s ++ "\""

/-- `JSON.stringify` of a keystore record, the serialized form a consumer
must produce before calling `DecryptKey`. -/
def serializeKey (r : KeystoreRecord) : String :=
  "\x7b" ++ jstr "address" ++ ":" ++ jstr r.address ++ "," ++
  jstr "crypto" ++ ":" ++ "\x7b" ++
    jstr "cipher" ++ ":" ++ jstr r.crypto.cipher ++ "," ++
    jstr "ciphertext" ++ ":" ++ jstr r.crypto.ciphertext ++ "," ++
    jstr "cipherparams" ++ ":" ++ "\x7b" ++
      jstr "iv" ++ ":" ++ jstr r.crypto.cipherparams.iv ++ "\x7d," ++
    jstr "kdf" ++ ":" ++ jstr r.crypto.kdf ++ "," ++
    jstr "kdfparams" ++ ":" ++ "\x7b" ++
      jstr "dklen" ++ ":" ++ toString r.crypto.kdfparams.dklen ++ "," ++
      jstr "n" ++ ":" ++ toString r.crypto.kdfparams.n ++ "," ++
      jstr "p" ++ ":" ++ toString r.crypto.kdfparams.p ++ "," ++
      jstr "r" ++ ":" ++ toString r.crypto.kdfparams.r ++ "," ++
      jstr "salt" ++ ":" ++ jstr r.crypto.kdfparams.salt ++ "\x7d," ++
    jstr "mac" ++ ":" ++ jstr r.crypto.mac ++ "\x7d," ++
  jstr "version" ++ ":" ++ toString r.version ++ "\x7d"

/-- `GenKey()` from `src/lib/utils/key.js`, fuel-indexed.  `entropy n` is
the `n`-th `crypto.randomBytes(32)` draw; `isValid` is
`ethutil.isValidPrivate`; `privToPub` and `pubToAddr` are the
deterministic `ethutil.privateToPublic` and `ethutil.pubToAddress`.  The
source's do/while loop has no iteration cap, so `fuel` is purely a device
of the model: `none` means the loop is still running after `fuel` draws,
never an error the source could raise. -/
def GenKey (isValid : List Nat → Bool) (privToPub pubToAddr : List Nat → List Nat)
    (entropy : Nat → List Nat) : Nat → Nat → Option KeyPair
  | _, 0 => none
  | i, fuel + 1 =>
    let privatekey := entropy i
    if isValid privatekey then
      some { prvkey := privatekey
             pubkey := privToPub privatekey
             addr := pubToAddr (privToPub privatekey) }
    else
      GenKey isValid privToPub pubToAddr entropy (i + 1) fuel

/-- The secp256k1 group order, the upper bound of `ethutil.isValidPrivate`. -/
def secp256k1N : Nat :=
  0xfffffffffffffffffffffffffffffffebaaedce6af48a03bbfd25e8cd0364141

/-- Big-endian numeric value of a byte buffer. -/
def bytesToNat (bs : List Nat) : Nat :=
  bs.foldl (fun a b => a * 256 + b) 0

/-- `ethutil.isValidPrivate`: 32 bytes, nonzero, below the curve order.
Models the external `ethereumjs-util` predicate the spec describes. -/
def isValidPrivate (priv : List Nat) : Bool :=
  decide (priv.length = 32) && decide (0 < bytesToNat priv)
    && decide (bytesToNat priv < secp256k1N)

/-- A record whose `crypto.ciphertext` field was replaced (tampering model). -/
def withCiphertext (r : KeystoreRecord) (ct : String) : KeystoreRecord :=
  { r with crypto := { r.crypto with ciphertext := ct } }

/-- A record whose `crypto.mac` field was replaced. -/
def withMac (r : KeystoreRecord) (m : String) : KeystoreRecord :=
  { r with crypto := { r.crypto with mac := m } }

/-- A record whose `crypto.kdfparams.salt` field was replaced. -/
def withSalt (r : KeystoreRecord) (s : String) : KeystoreRecord :=
  { r with crypto :=
    { r.crypto with kdfparams := { r.crypto.kdfparams with salt := s } } }

/-- A record whose `crypto.cipherparams.iv` field was replaced. -/
def withIv (r : KeystoreRecord) (iv : String) : KeystoreRecord :=
  { r with crypto := { r.crypto with cipherparams := { iv := iv } } }

/-! ### Concrete instantiations of the external primitives

Used to evaluate the theorems on closed inputs.  They satisfy the
interface contracts of `Prims` (`stream_len`, `stream_lt`, and for the
hash the collision-freeness assumed by the tamper-detection theorems),
without of course being the real scrypt/keccak/AES. -/

def toyKdf (_passwd : String) (salt : List Nat) (_n _r _p dklen : Nat) : List Nat :=
  (salt ++ List.replicate dklen 0).take dklen

def toyHash (l : List Nat) : List Nat := l

def toyStream (key iv : List Nat) (n : Nat) : List Nat :=
  ((iv ++ key).map (fun b => b % 256) ++ List.replicate n 0).take n

def toyPrims : Prims where
  kdf := toyKdf
  hash := toyHash
  stream := toyStream
  stream_len := by
    intro key iv n
    simp [toyStream]
    omega
  stream_lt := by
    intro key iv n b hb
    rcases List.mem_append.mp (List.take_subset _ _ hb) with h | h
    · obtain ⟨a, _, rfl⟩ := List.mem_map.mp h
      exact Nat.mod_lt _ (by omega)
    · rw [List.eq_of_mem_replicate h]
      omega

theorem toyHash_inj : Function.Injective toyHash := fun _ _ h => h

def wKey : KeyPair := ⟨List.replicate 32 1, [7], [9]⟩

def wSalt : List Nat := List.range 32

def wSalt2 : List Nat := (List.range 32).map (fun i => i + 32)

def wIv : List Nat := List.replicate 16 2

def wIv2 : List Nat := List.replicate 16 3

def wRec : KeystoreRecord := EncryptKey toyPrims wKey "pw" wSalt wIv

/-- A stand-in for `JSON.parse` that inverts `serializeKey` at the one
record the closed evaluations use. -/
def toyParse (s : String) : Option KeystoreRecord :=
  if s = serializeKey wRec then some wRec else none

/-- A record with an unsupported version, for closed evaluation. -/
def wBadVersion : KeystoreRecord :=
  { address := "", crypto :=
    { cipher := "aes-128-ctr", ciphertext := "", cipherparams := ⟨""⟩,
      kdf := "scrypt", kdfparams := ⟨32, 1, 1, 1, ""⟩, mac := "" },
    version := 2 }

/-- A version-3 record with an unsupported cipher name. -/
def wBadCipher : KeystoreRecord :=
  { wBadVersion with
    version := 3
    crypto := { wBadVersion.crypto with cipher := "aes-256-gcm" } }

/-- A version-3 record with the right cipher but an unsupported kdf name. -/
def wBadKdf : KeystoreRecord :=
  { wBadVersion with
    version := 3
    crypto := { wBadVersion.crypto with kdf := "pbkdf2" } }

/-- A well-named record whose stored mac cannot match (not even a hex
string), for closed evaluation of the mac gate. -/
def wBadMac : CryptoJson :=
  { cipher := "aes-128-ctr", ciphertext := "00", cipherparams := ⟨"00"⟩,
    kdf := "scrypt", kdfparams := ⟨32, 262144, 1, 8, "00"⟩, mac := "zz" }

/-- A private key accepted by `isValidPrivate` (value 1). -/
def wPk : List Nat := List.replicate 31 0 ++ [1]

/-- An entropy stream that yields `wPk` on every draw. -/
def wEntropy : Nat → List Nat := fun _ => wPk

/-- The keypair `GenKey` mints from `wEntropy` under identity derivations. -/
def wGenKp : KeyPair := ⟨wPk, wPk, wPk⟩

instance : DecidableEq (Except String String) := fun x y =>
  match x, y with
  | Except.error a, Except.error b =>
    if h : a = b then Decidable.isTrue (by rw [h])
    else Decidable.isFalse (fun he => h (Except.error.inj he))
  | Except.ok a, Except.ok b =>
    if h : a = b then Decidable.isTrue (by rw [h])
    else Decidable.isFalse (fun he => h (Except.ok.inj he))
  | Except.error _, Except.ok _ => Decidable.isFalse (fun he => Except.noConfusion he)
  | Except.ok _, Except.error _ => Decidable.isFalse (fun he => Except.noConfusion he)

/-- The derived key material `EncryptKey` computes (`dpasswd`). -/
def encDk (P : Prims) (passwd : String) (salt : List Nat) : List Nat :=
  P.kdf passwd salt ScryptN ScryptR ScryptP ScryptDKLen

/-- The raw ciphertext bytes `EncryptKey` computes. -/
def encCt (P : Prims) (k : KeyPair) (passwd : String) (salt iv : List Nat) : List Nat :=
  aes128ctr P (jsSlice (encDk P passwd salt) 0 16) iv k.prvkey

/-- The mac bytes `EncryptKey` computes (hash of MAC sub-key ++ raw
ciphertext). -/
def encMacBytes (P : Prims) (k : KeyPair) (passwd : String) (salt iv : List Nat) : List Nat :=
  P.hash (jsSlice (encDk P passwd salt) 16 32 ++ encCt P k passwd salt iv)

/-! ### Helper lemmas about the byte/hex infrastructure -/

theorem hexDigitVal_hexDigit : ∀ n < 16, hexDigitVal (hexDigit n) = n := by
  decide

theorem natXor_eq (a b : Nat) : Nat.xor a b = a ^^^ b := rfl

theorem hexDecodeAux_byteToHex (b : Nat) (hb : b < 256) (rest : List Char) :
    hexDecodeAux (byteToHex b ++ rest) = b :: hexDecodeAux rest := by
  have h1 : b / 16 < 16 := Nat.div_lt_of_lt_mul (by omega)
  have h2 : b % 16 < 16 := Nat.mod_lt _ (by omega)
  simp only [byteToHex, List.cons_append, List.nil_append, hexDecodeAux,
    hexDigitVal_hexDigit _ h1, hexDigitVal_hexDigit _ h2, List.cons.injEq]
  constructor
  · omega
  · rfl

theorem hexDecodeAux_hexEncodeList (bs : List Nat) (hb : ∀ b ∈ bs, b < 256) :
    hexDecodeAux (hexEncodeList bs) = bs := by
  induction bs with
  | nil => rfl
  | cons b bs ih =>
    simp only [hexEncodeList]
    rw [hexDecodeAux_byteToHex b (hb b (by simp)),
      ih (fun x hx => hb x (by simp [hx]))]

theorem hexDecode_hexEncode (bs : List Nat) (hb : ∀ b ∈ bs, b < 256) :
    hexDecode (hexEncode bs) = bs :=
  hexDecodeAux_hexEncodeList bs hb

theorem hexEncode_inj {bs1 bs2 : List Nat} (h1 : ∀ b ∈ bs1, b < 256)
    (h2 : ∀ b ∈ bs2, b < 256) (h : hexEncode bs1 = hexEncode bs2) :
    bs1 = bs2 := by
  have := congrArg hexDecode h
  rwa [hexDecode_hexEncode bs1 h1, hexDecode_hexEncode bs2 h2] at this

theorem hexEncodeList_length (bs : List Nat) :
    (hexEncodeList bs).length = 2 * bs.length := by
  induction bs with
  | nil => rfl
  | cons b bs ih => simp [hexEncodeList, byteToHex, ih]; omega

theorem hexEncode_length (bs : List Nat) :
    (hexEncode bs).length = 2 * bs.length := by
  simp [hexEncode, String.length, hexEncodeList_length]

theorem hexDigit_mem_alphabet : ∀ n < 16, hexDigit n ∈ "0123456789abcdef".data := by
  decide

theorem hexEncode_lower (bs : List Nat) (hb : ∀ b ∈ bs, b < 256) :
    ∀ c ∈ (hexEncode bs).data, c ∈ "0123456789abcdef".data := by
  simp only [hexEncode]
  induction bs with
  | nil => simp [hexEncodeList]
  | cons b bs ih =>
    intro c hc
    have hb0 : b < 256 := hb b (by simp)
    have h1 : b / 16 < 16 := Nat.div_lt_of_lt_mul (by omega)
    have h2 : b % 16 < 16 := Nat.mod_lt _ (by omega)
    simp only [hexEncodeList, byteToHex, List.cons_append, List.nil_append,
      List.mem_cons] at hc
    rcases hc with rfl | rfl | hc
    · exact hexDigit_mem_alphabet _ h1
    · exact hexDigit_mem_alphabet _ h2
    · exact ih (fun x hx => hb x (by simp [hx])) c hc

theorem zipWith_xor_lt (xs ys : List Nat) (hx : ∀ a ∈ xs, a < 256)
    (hy : ∀ a ∈ ys, a < 256) : ∀ c ∈ List.zipWith Nat.xor xs ys, c < 256 := by
  induction xs generalizing ys with
  | nil => simp
  | cons a xs ih =>
    cases ys with
    | nil => simp
    | cons b ys =>
      intro c hc
      simp only [List.zipWith_cons_cons, List.mem_cons] at hc
      rcases hc with rfl | hc
      · rw [natXor_eq]
        exact Nat.xor_lt_two_pow (n := 8) (hx a (by simp)) (hy b (by simp))
      · exact ih ys (fun x hx2 => hx x (List.mem_cons_of_mem _ hx2))
          (fun x hy2 => hy x (List.mem_cons_of_mem _ hy2)) c hc

theorem zipWith_xor_cancel (xs ys : List Nat) (h : ys.length = xs.length) :
    List.zipWith Nat.xor (List.zipWith Nat.xor xs ys) ys = xs := by
  induction xs generalizing ys with
  | nil => simp
  | cons a xs ih =>
    cases ys with
    | nil => simp at h
    | cons b ys =>
      simp only [List.zipWith_cons_cons]
      rw [ih ys (by simpa using h)]
      congr 1
      rw [natXor_eq, natXor_eq, Nat.xor_cancel_right]

theorem zipWith_xor_left_cancel (xs ys1 ys2 : List Nat)
    (h1 : ys1.length = xs.length) (h2 : ys2.length = xs.length)
    (h : List.zipWith Nat.xor xs ys1 = List.zipWith Nat.xor xs ys2) :
    ys1 = ys2 := by
  induction xs generalizing ys1 ys2 with
  | nil =>
    cases ys1 <;> cases ys2 <;> simp_all
  | cons a xs ih =>
    cases ys1 with
    | nil => simp at h1
    | cons b1 ys1 =>
      cases ys2 with
      | nil => simp at h2
      | cons b2 ys2 =>
        simp only [List.zipWith_cons_cons, List.cons.injEq] at h
        have hb : b1 = b2 := by
          have hx := h.1
          rw [natXor_eq, natXor_eq] at hx
          exact Nat.xor_right_injective hx
        rw [hb, ih ys1 ys2 (by simpa using h1) (by simpa using h2) h.2]

theorem mem_set (bs : List Nat) (j v : Nat) :
    ∀ x ∈ bs.set j v, x = v ∨ x ∈ bs := by
  induction bs generalizing j with
  | nil => simp
  | cons a bs ih =>
    cases j with
    | zero => intro x hx; simp only [List.set] at hx
              rcases List.mem_cons.mp hx with rfl | hx
              · exact Or.inl rfl
              · exact Or.inr (by simp [hx])
    | succ j => intro x hx; simp only [List.set] at hx
                rcases List.mem_cons.mp hx with rfl | hx
                · exact Or.inr (by simp)
                · rcases ih j x hx with h | h
                  · exact Or.inl h
                  · exact Or.inr (by simp [h])

theorem set_ne_of_ne (bs : List Nat) (j v : Nat) (hj : j < bs.length)
    (hv : v ≠ bs.getD j 0) : bs.set j v ≠ bs := by
  induction bs generalizing j with
  | nil => simp at hj
  | cons a bs ih =>
    cases j with
    | zero =>
      simp only [List.set]
      intro h
      exact hv (by simpa using congrArg (fun l => l.getD 0 0) h)
    | succ j =>
      simp only [List.set]
      intro h
      exact ih j (by simpa using hj) (by simpa using hv)
        (by simpa using congrArg List.tail h)

theorem flipBit_ne (bs : List Nat) (j b : Nat) (hj : j < bs.length) :
    flipBit bs j b ≠ bs := by
  apply set_ne_of_ne _ _ _ hj
  intro h
  have e : Nat.xor (bs.getD j 0) (Nat.xor (bs.getD j 0) (2 ^ b)) = 2 ^ b := by
    simp only [natXor_eq]
    exact Nat.xor_cancel_left _ _
  rw [h] at e
  simp only [natXor_eq, Nat.xor_self] at e
  have : (0 : Nat) < 2 ^ b := Nat.pos_pow_of_pos b (by omega)
  omega

theorem flipBit_lt (bs : List Nat) (j b : Nat) (hb : ∀ x ∈ bs, x < 256)
    (hbit : b < 8) : ∀ x ∈ flipBit bs j b, x < 256 := by
  intro x hx
  rcases mem_set bs j _ x hx with rfl | h
  · rcases Nat.lt_or_ge j bs.length with hj | hj
    · have hg : bs.getD j 0 < 256 := by
        rw [List.getD_eq_getElem _ _ hj]
        exact hb _ (List.getElem_mem hj)
      have hp : (2 : Nat) ^ b < 256 := by
        calc (2 : Nat) ^ b < 2 ^ 8 := Nat.pow_lt_pow_right (by omega) hbit
        _ = 256 := by norm_num
      exact Nat.xor_lt_two_pow (n := 8) hg hp
    · have h0 : bs.getD j 0 = 0 := List.getD_eq_default _ _ hj
      rw [h0, natXor_eq, Nat.zero_xor]
      calc (2 : Nat) ^ b < 2 ^ 8 := Nat.pow_lt_pow_right (by omega) hbit
      _ = 256 := by norm_num
  · exact hb x h

theorem length_aes128ctr (P : Prims) (key iv data : List Nat) :
    (aes128ctr P key iv data).length = data.length := by
  simp [aes128ctr, List.length_zipWith, P.stream_len]

theorem aes128ctr_lt (P : Prims) (key iv data : List Nat)
    (hd : ∀ b ∈ data, b < 256) : ∀ b ∈ aes128ctr P key iv data, b < 256 :=
  zipWith_xor_lt _ _ hd (P.stream_lt _ _ _)

theorem aes128ctr_inv (P : Prims) (key iv data : List Nat) :
    aes128ctr P key iv (aes128ctr P key iv data) = data := by
  show List.zipWith Nat.xor (aes128ctr P key iv data)
      (P.stream key iv (aes128ctr P key iv data).length) = data
  rw [length_aes128ctr]
  exact zipWith_xor_cancel data _ (P.stream_len key iv data.length)

/-- Decryption of a freshly encrypted record re-derives the same key
material, recomputes the identical mac, and inverts the CTR stream:
the full instrumented run of `DecryptKeyV3` on `EncryptKey`s output. -/
theorem decrypt_encrypt_core (P : Prims) (k : KeyPair) (passwd : String)
    (salt iv : List Nat) (hk : ∀ b ∈ k.prvkey, b < 256)
    (hs : ∀ b ∈ salt, b < 256) (hiv : ∀ b ∈ iv, b < 256) :
    DecryptKeyV3T P (EncryptKey P k passwd salt iv).crypto passwd =
      (Except.ok (hexEncode k.prvkey), [Prim.kdf, Prim.hash, Prim.cipher]) := by
  have hct : ∀ b ∈ aes128ctr P
      (jsSlice (P.kdf passwd salt ScryptN ScryptR ScryptP ScryptDKLen) 0 16)
      iv k.prvkey, b < 256 :=
    aes128ctr_lt _ _ _ _ hk
  simp only [DecryptKeyV3T, EncryptKey, recomputedMac, decryptDk,
    hexDecode_hexEncode salt hs, hexDecode_hexEncode iv hiv,
    hexDecode_hexEncode _ hct, aes128ctr_inv, ne_eq, not_true_eq_false,
    if_false]

theorem decrypt_encrypt_v3 (P : Prims) (k : KeyPair) (passwd : String)
    (salt iv : List Nat) (hk : ∀ b ∈ k.prvkey, b < 256)
    (hs : ∀ b ∈ salt, b < 256) (hiv : ∀ b ∈ iv, b < 256) :
    DecryptKeyV3 P (EncryptKey P k passwd salt iv).crypto passwd =
      Except.ok (hexEncode k.prvkey) := by
  rw [DecryptKeyV3, decrypt_encrypt_core P k passwd salt iv hk hs hiv]

theorem decryptKeyT_encrypt (parse : String → Option KeystoreRecord)
    (P : Prims) (k : KeyPair) (passwd : String) (salt iv : List Nat)
    (hk : ∀ b ∈ k.prvkey, b < 256) (hs : ∀ b ∈ salt, b < 256)
    (hiv : ∀ b ∈ iv, b < 256)
    (hparse : parse (serializeKey (EncryptKey P k passwd salt iv)) =
      some (EncryptKey P k passwd salt iv)) :
    DecryptKeyT parse P (serializeKey (EncryptKey P k passwd salt iv)) passwd =
      (Except.ok (hexEncode k.prvkey), [Prim.kdf, Prim.hash, Prim.cipher]) := by
  simp only [DecryptKeyT, hparse]
  have hv : (EncryptKey P k passwd salt iv).version = 3 := rfl
  rw [if_pos hv]
  exact decrypt_encrypt_core P k passwd salt iv hk hs hiv

/-! ### Claim theorems -/

/-- C1: for every valid KeyPair `k` (byte-valued private key) and every
passphrase `p`, decrypting the serialized record produced by
`EncryptKey(k, p)` with the same passphrase recovers `k`'s private key:
the result is its hex encoding, and decoding it yields the original 32
private-key bytes. -/
theorem encrypt_then_decrypt_recovers_key (parse : String → Option KeystoreRecord)
    (P : Prims) (k : KeyPair) (passwd : String) (salt iv : List Nat)
    (hk : ∀ b ∈ k.prvkey, b < 256) (hs : ∀ b ∈ salt, b < 256)
    (hiv : ∀ b ∈ iv, b < 256)
    (hparse : parse (serializeKey (EncryptKey P k passwd salt iv)) =
      some (EncryptKey P k passwd salt iv)) :
    DecryptKey parse P (serializeKey (EncryptKey P k passwd salt iv)) passwd =
      Except.ok (hexEncode k.prvkey) ∧
    hexDecode (hexEncode k.prvkey) = k.prvkey :=
  ⟨by rw [DecryptKey, decryptKeyT_encrypt parse P k passwd salt iv hk hs hiv hparse],
   hexDecode_hexEncode _ hk⟩

theorem encrypt_then_decrypt_recovers_key_witness :
    DecryptKey toyParse toyPrims (serializeKey wRec) "pw" =
      Except.ok (hexEncode wKey.prvkey) ∧
    hexDecode (hexEncode wKey.prvkey) = wKey.prvkey :=
  encrypt_then_decrypt_recovers_key toyParse toyPrims wKey "pw" wSalt wIv
    (by decide) (by decide) (by decide) (by simp [toyParse, wRec])

/-- C5: the record returned by `EncryptKey` carries version 3,
cipher `aes-128-ctr`, kdf `scrypt`, kdfparams `dklen = 32`,
`n = 2^18 = 262144`, `r = 8`, `p = 1`, the hex of the 32-byte salt
(64 hex characters), the hex of the 16-byte iv (32 hex characters),
the hex ciphertext, the hex mac, and the address. -/
theorem encrypt_record_format (P : Prims) (k : KeyPair) (passwd : String)
    (salt iv : List Nat) (hs : salt.length = 32) (hiv : iv.length = 16) :
    (EncryptKey P k passwd salt iv).version = 3 ∧
    (EncryptKey P k passwd salt iv).crypto.cipher = "aes-128-ctr" ∧
    (EncryptKey P k passwd salt iv).crypto.kdf = "scrypt" ∧
    (EncryptKey P k passwd salt iv).crypto.kdfparams.dklen = 32 ∧
    (EncryptKey P k passwd salt iv).crypto.kdfparams.n = 262144 ∧
    (EncryptKey P k passwd salt iv).crypto.kdfparams.r = 8 ∧
    (EncryptKey P k passwd salt iv).crypto.kdfparams.p = 1 ∧
    (EncryptKey P k passwd salt iv).crypto.kdfparams.salt = hexEncode salt ∧
    (EncryptKey P k passwd salt iv).crypto.kdfparams.salt.length = 64 ∧
    (EncryptKey P k passwd salt iv).crypto.cipherparams.iv = hexEncode iv ∧
    (EncryptKey P k passwd salt iv).crypto.cipherparams.iv.length = 32 ∧
    (EncryptKey P k passwd salt iv).crypto.ciphertext =
      hexEncode (aes128ctr P
        (jsSlice (P.kdf passwd salt ScryptN ScryptR ScryptP ScryptDKLen) 0 16)
        iv k.prvkey) ∧
    (EncryptKey P k passwd salt iv).crypto.mac =
      hexEncode (P.hash
        (jsSlice (P.kdf passwd salt ScryptN ScryptR ScryptP ScryptDKLen) 16 32 ++
          hexDecode (EncryptKey P k passwd salt iv).crypto.ciphertext)) ∧
    (EncryptKey P k passwd salt iv).address = hexEncode k.addr := by
  refine ⟨rfl, rfl, rfl, rfl, by norm_num [EncryptKey, ScryptN], rfl, rfl, rfl,
    ?_, rfl, ?_, rfl, rfl, rfl⟩
  · show (hexEncode salt).length = 64
    rw [hexEncode_length, hs]
  · show (hexEncode iv).length = 32
    rw [hexEncode_length, hiv]

theorem encrypt_record_format_witness :
    (EncryptKey toyPrims wKey "pw" wSalt wIv).version = 3 ∧
    (EncryptKey toyPrims wKey "pw" wSalt wIv).crypto.cipher = "aes-128-ctr" ∧
    (EncryptKey toyPrims wKey "pw" wSalt wIv).crypto.kdf = "scrypt" ∧
    (EncryptKey toyPrims wKey "pw" wSalt wIv).crypto.kdfparams.dklen = 32 ∧
    (EncryptKey toyPrims wKey "pw" wSalt wIv).crypto.kdfparams.n = 262144 ∧
    (EncryptKey toyPrims wKey "pw" wSalt wIv).crypto.kdfparams.r = 8 ∧
    (EncryptKey toyPrims wKey "pw" wSalt wIv).crypto.kdfparams.p = 1 ∧
    (EncryptKey toyPrims wKey "pw" wSalt wIv).crypto.kdfparams.salt =
      hexEncode wSalt ∧
    (EncryptKey toyPrims wKey "pw" wSalt wIv).crypto.kdfparams.salt.length = 64 ∧
    (EncryptKey toyPrims wKey "pw" wSalt wIv).crypto.cipherparams.iv =
      hexEncode wIv ∧
    (EncryptKey toyPrims wKey "pw" wSalt wIv).crypto.cipherparams.iv.length = 32 ∧
    (EncryptKey toyPrims wKey "pw" wSalt wIv).crypto.ciphertext =
      hexEncode (aes128ctr toyPrims
        (jsSlice (toyPrims.kdf "pw" wSalt ScryptN ScryptR ScryptP ScryptDKLen) 0 16)
        wIv wKey.prvkey) ∧
    (EncryptKey toyPrims wKey "pw" wSalt wIv).crypto.mac =
      hexEncode (toyPrims.hash
        (jsSlice (toyPrims.kdf "pw" wSalt ScryptN ScryptR ScryptP ScryptDKLen) 16 32 ++
          hexDecode (EncryptKey toyPrims wKey "pw" wSalt wIv).crypto.ciphertext)) ∧
    (EncryptKey toyPrims wKey "pw" wSalt wIv).address = hexEncode wKey.addr :=
  encrypt_record_format toyPrims wKey "pw" wSalt wIv (by decide) (by decide)

/-- C7: every private key returned by `GenKey` satisfies the validity
predicate supplied to it (in the source, `ethutil.isValidPrivate`:
nonzero and within the curve order), and the returned `pubkey` and
`addr` are the deterministic pure derivations of that private key. -/
theorem genkey_returns_valid_keypair (isValid : List Nat → Bool)
    (privToPub pubToAddr : List Nat → List Nat) (entropy : Nat → List Nat)
    (i fuel : Nat) (kp : KeyPair)
    (h : GenKey isValid privToPub pubToAddr entropy i fuel = some kp) :
    isValid kp.prvkey = true ∧ kp.pubkey = privToPub kp.prvkey ∧
    kp.addr = pubToAddr (privToPub kp.prvkey) := by
  induction fuel generalizing i with
  | zero => simp [GenKey] at h
  | succ fuel ih =>
    simp only [GenKey] at h
    cases hv : isValid (entropy i) with
    | true =>
      rw [hv] at h
      simp only [if_true] at h
      injection h with h2
      subst h2
      exact ⟨hv, rfl, rfl⟩
    | false =>
      rw [hv] at h
      simp only [Bool.false_eq_true, if_false] at h
      exact ih (i + 1) h

theorem genkey_returns_valid_keypair_witness :
    isValidPrivate wGenKp.prvkey = true ∧
    wGenKp.pubkey = wGenKp.prvkey ∧ wGenKp.addr = wGenKp.prvkey :=
  genkey_returns_valid_keypair isValidPrivate (fun l => l) (fun l => l)
    wEntropy 0 1 wGenKp (by decide)

theorem genKey_some_valid (isValid : List Nat → Bool)
    (privToPub pubToAddr : List Nat → List Nat) (entropy : Nat → List Nat) :
    ∀ fuel i kp, GenKey isValid privToPub pubToAddr entropy i fuel = some kp →
      ∃ n, i ≤ n ∧ isValid (entropy n) = true := by
  intro fuel
  induction fuel with
  | zero => intro i kp h; simp [GenKey] at h
  | succ fuel ih =>
    intro i kp h
    simp only [GenKey] at h
    cases hv : isValid (entropy i) with
    | true => exact ⟨i, Nat.le_refl i, hv⟩
    | false =>
      rw [hv] at h
      simp only [Bool.false_eq_true, if_false] at h
      obtain ⟨n, hn, hvn⟩ := ih (i + 1) kp h
      exact ⟨n, by omega, hvn⟩

theorem genKey_progress (isValid : List Nat → Bool)
    (privToPub pubToAddr : List Nat → List Nat) (entropy : Nat → List Nat) :
    ∀ d i, isValid (entropy (i + d)) = true →
      ∃ kp, GenKey isValid privToPub pubToAddr entropy i (d + 1) = some kp := by
  intro d
  induction d with
  | zero =>
    intro i hv
    rw [Nat.add_zero] at hv
    refine ⟨⟨entropy i, privToPub (entropy i),
      pubToAddr (privToPub (entropy i))⟩, ?_⟩
    simp only [GenKey, hv, if_true]
  | succ d ih =>
    intro i hv
    cases hv0 : isValid (entropy i) with
    | true =>
      refine ⟨⟨entropy i, privToPub (entropy i),
        pubToAddr (privToPub (entropy i))⟩, ?_⟩
      simp only [GenKey, hv0, if_true]
    | false =>
      obtain ⟨kp, hkp⟩ := ih (i + 1) (by rw [show i + 1 + d = i + (d + 1) by omega]; exact hv)
      refine ⟨kp, ?_⟩
      simp only [GenKey, hv0, Bool.false_eq_true, if_false]
      exact hkp

/-- C10: the `GenKey` redraw loop has no iteration cap and no
EntropyExhausted failure path.  Starting from draw `i`, the loop returns
a keypair (for some amount of fuel) exactly when the entropy source
eventually yields a value the validity predicate accepts; on a
persistently invalid entropy stream it returns `none` — still looping —
for every fuel, never an error value (its result type has no error
outcome at all). -/
theorem genkey_no_cap_terminates_iff_valid_draw (isValid : List Nat → Bool)
    (privToPub pubToAddr : List Nat → List Nat) (entropy : Nat → List Nat)
    (i : Nat) :
    ((∃ fuel kp, GenKey isValid privToPub pubToAddr entropy i fuel = some kp) ↔
      ∃ n, i ≤ n ∧ isValid (entropy n) = true) ∧
    ((∀ n, i ≤ n → isValid (entropy n) = false) →
      ∀ fuel, GenKey isValid privToPub pubToAddr entropy i fuel = none) := by
  constructor
  · constructor
    · rintro ⟨fuel, kp, h⟩
      exact genKey_some_valid isValid privToPub pubToAddr entropy fuel i kp h
    · rintro ⟨n, hn, hv⟩
      obtain ⟨kp, hkp⟩ := genKey_progress isValid privToPub pubToAddr entropy
        (n - i) i (by rw [show i + (n - i) = n by omega]; exact hv)
      exact ⟨n - i + 1, kp, hkp⟩
  · intro hall fuel
    cases h : GenKey isValid privToPub pubToAddr entropy i fuel with
    | none => rfl
    | some kp =>
      obtain ⟨n, hn, hv⟩ :=
        genKey_some_valid isValid privToPub pubToAddr entropy fuel i kp h
      rw [hall n hn] at hv
      cases hv

theorem genkey_no_cap_terminates_iff_valid_draw_witness :
    ((∃ fuel kp, GenKey isValidPrivate (fun l => l) (fun l => l)
        wEntropy 0 fuel = some kp) ↔
      ∃ n, 0 ≤ n ∧ isValidPrivate (wEntropy n) = true) ∧
    ((∀ n, 0 ≤ n → isValidPrivate (wEntropy n) = false) →
      ∀ fuel, GenKey isValidPrivate (fun l => l) (fun l => l)
        wEntropy 0 fuel = none) :=
  genkey_no_cap_terminates_iff_valid_draw isValidPrivate (fun l => l)
    (fun l => l) wEntropy 0

/-- C4: `DecryptKey` rejects — with the empty invocation trace, so
without calling the key-derivation function, the hash, or the cipher —
any parsed record whose version differs from 3 (`"version must be 3"`,
the UnsupportedVersion error), then any version-3 record whose cipher
identifier is not `"aes-128-ctr"` (`"Cipher not support: ..."`), then
any whose kdf identifier is not `"scrypt"` (`"only support scrypt"`). -/
theorem decrypt_rejects_unsupported_format (parse : String → Option KeystoreRecord)
    (P : Prims) (s passwd : String) (keyJson : KeystoreRecord)
    (hparse : parse s = some keyJson) :
    (keyJson.version ≠ 3 →
      DecryptKeyT parse P s passwd = (Except.error "version must be 3", [])) ∧
    (keyJson.version = 3 → keyJson.crypto.cipher ≠ "aes-128-ctr" →
      DecryptKeyT parse P s passwd =
        (Except.error ("Cipher not support: " ++ keyJson.crypto.cipher), [])) ∧
    (keyJson.version = 3 → keyJson.crypto.cipher = "aes-128-ctr" →
      keyJson.crypto.kdf ≠ "scrypt" →
      DecryptKeyT parse P s passwd = (Except.error "only support scrypt", [])) := by
  refine ⟨?_, ?_, ?_⟩
  · intro hv
    simp only [DecryptKeyT, hparse]
    rw [if_neg hv]
  · intro hv hc
    simp only [DecryptKeyT, hparse]
    rw [if_pos hv, DecryptKeyV3T, if_pos hc]
  · intro hv hc hk
    simp only [DecryptKeyT, hparse]
    rw [if_pos hv, DecryptKeyV3T, if_neg (by simp [hc]), if_pos hk]

theorem decrypt_rejects_unsupported_format_witness :
    (DecryptKeyT (fun _ => some wBadVersion) toyPrims "r" "pw" =
      (Except.error "version must be 3", [])) ∧
    (DecryptKeyT (fun _ => some wBadCipher) toyPrims "r" "pw" =
      (Except.error ("Cipher not support: " ++ "aes-256-gcm"), [])) ∧
    (DecryptKeyT (fun _ => some wBadKdf) toyPrims "r" "pw" =
      (Except.error "only support scrypt", [])) := by
  refine ⟨?_, ?_, ?_⟩
  · exact (decrypt_rejects_unsupported_format (fun _ => some wBadVersion)
      toyPrims "r" "pw" wBadVersion rfl).1 (by decide)
  · exact (decrypt_rejects_unsupported_format (fun _ => some wBadCipher)
      toyPrims "r" "pw" wBadCipher rfl).2.1 (by decide) (by decide)
  · exact (decrypt_rejects_unsupported_format (fun _ => some wBadKdf)
      toyPrims "r" "pw" wBadKdf rfl).2.2 (by decide) (by decide) (by decide)

/-- C3: in `DecryptKeyV3`, the recomputed mac is compared byte-for-byte
(as hex strings) against the stored mac before the cipher is ever
invoked: on any mismatch the run fails with the single fixed
AuthenticationFailed message — the same one whether the passphrase was
wrong or the data tampered — after invoking only the kdf and the hash,
returning no plaintext; the cipher appears in the invocation trace, and
an `ok` plaintext is produced, only when the recomputed mac equals the
stored one. -/
theorem mac_checked_before_cipher (P : Prims) (c : CryptoJson)
    (passwd : String) (hc : c.cipher = "aes-128-ctr") (hk : c.kdf = "scrypt") :
    (recomputedMac P c passwd ≠ c.mac →
      DecryptKeyV3T P c passwd = (Except.error authFailed, [Prim.kdf, Prim.hash])) ∧
    (Prim.cipher ∈ (DecryptKeyV3T P c passwd).2 →
      recomputedMac P c passwd = c.mac) ∧
    (∀ s, (DecryptKeyV3T P c passwd).1 = Except.ok s →
      recomputedMac P c passwd = c.mac) := by
  have h1 : ¬c.cipher ≠ "aes-128-ctr" := by simp [hc]
  have h2 : ¬c.kdf ≠ "scrypt" := by simp [hk]
  refine ⟨?_, ?_, ?_⟩
  · intro hm
    rw [DecryptKeyV3T, if_neg h1, if_neg h2, if_pos hm]
  · intro hmem
    by_contra hm
    rw [DecryptKeyV3T, if_neg h1, if_neg h2, if_pos hm] at hmem
    simp at hmem
  · intro s hok
    by_contra hm
    rw [DecryptKeyV3T, if_neg h1, if_neg h2, if_pos hm] at hok
    simp at hok

theorem mac_checked_before_cipher_witness :
    (recomputedMac toyPrims wBadMac "pw" ≠ wBadMac.mac →
      DecryptKeyV3T toyPrims wBadMac "pw" =
        (Except.error authFailed, [Prim.kdf, Prim.hash])) ∧
    (Prim.cipher ∈ (DecryptKeyV3T toyPrims wBadMac "pw").2 →
      recomputedMac toyPrims wBadMac "pw" = wBadMac.mac) ∧
    (∀ s, (DecryptKeyV3T toyPrims wBadMac "pw").1 = Except.ok s →
      recomputedMac toyPrims wBadMac "pw" = wBadMac.mac) :=
  mac_checked_before_cipher toyPrims wBadMac "pw" rfl rfl

/-- C6: both sides split the 32 derived-key bytes positionally — the
encryption sub-key is bytes `[0,16)` (`slice(0,16)`, i.e. `take 16`) and
the MAC sub-key is bytes `[16,32)` (`slice(16,32)`, i.e.
`drop 16 ∘ take 32`) — and the stored mac is the keccak/sha3 hash of the
MAC sub-key concatenated with the raw ciphertext bytes, on encryption as
on decryption, where the cipher is keyed with the `[0,16)` sub-key. -/
theorem derived_key_split_and_mac (P : Prims) (k : KeyPair) (passwd : String)
    (salt iv : List Nat) :
    jsSlice (P.kdf passwd salt ScryptN ScryptR ScryptP ScryptDKLen) 0 16 =
      (P.kdf passwd salt ScryptN ScryptR ScryptP ScryptDKLen).take 16 ∧
    jsSlice (P.kdf passwd salt ScryptN ScryptR ScryptP ScryptDKLen) 16 32 =
      ((P.kdf passwd salt ScryptN ScryptR ScryptP ScryptDKLen).take 32).drop 16 ∧
    (EncryptKey P k passwd salt iv).crypto.ciphertext =
      hexEncode (aes128ctr P
        ((P.kdf passwd salt ScryptN ScryptR ScryptP ScryptDKLen).take 16)
        iv k.prvkey) ∧
    (EncryptKey P k passwd salt iv).crypto.mac =
      hexEncode (P.hash
        (((P.kdf passwd salt ScryptN ScryptR ScryptP ScryptDKLen).take 32).drop 16 ++
          hexDecode (EncryptKey P k passwd salt iv).crypto.ciphertext)) ∧
    (∀ c : CryptoJson, recomputedMac P c passwd =
      hexEncode (P.hash (((decryptDk P c passwd).take 32).drop 16 ++
        hexDecode c.ciphertext))) ∧
    (∀ c : CryptoJson, c.cipher = "aes-128-ctr" → c.kdf = "scrypt" →
      recomputedMac P c passwd = c.mac →
      DecryptKeyV3 P c passwd = Except.ok (hexEncode (aes128ctr P
        ((decryptDk P c passwd).take 16) (hexDecode c.cipherparams.iv)
        (hexDecode c.ciphertext)))) := by
  refine ⟨rfl, rfl, rfl, rfl, fun c => rfl, fun c hc hk hm => ?_⟩
  rw [DecryptKeyV3, DecryptKeyV3T, if_neg (by simp [hc]), if_neg (by simp [hk]),
    if_neg (by simp [hm])]
  rfl

theorem derived_key_split_and_mac_witness :
    jsSlice (toyPrims.kdf "pw" wSalt ScryptN ScryptR ScryptP ScryptDKLen) 0 16 =
      (toyPrims.kdf "pw" wSalt ScryptN ScryptR ScryptP ScryptDKLen).take 16 ∧
    jsSlice (toyPrims.kdf "pw" wSalt ScryptN ScryptR ScryptP ScryptDKLen) 16 32 =
      ((toyPrims.kdf "pw" wSalt ScryptN ScryptR ScryptP ScryptDKLen).take 32).drop 16 ∧
    (EncryptKey toyPrims wKey "pw" wSalt wIv).crypto.ciphertext =
      hexEncode (aes128ctr toyPrims
        ((toyPrims.kdf "pw" wSalt ScryptN ScryptR ScryptP ScryptDKLen).take 16)
        wIv wKey.prvkey) ∧
    (EncryptKey toyPrims wKey "pw" wSalt wIv).crypto.mac =
      hexEncode (toyPrims.hash
        (((toyPrims.kdf "pw" wSalt ScryptN ScryptR ScryptP ScryptDKLen).take 32).drop 16 ++
          hexDecode (EncryptKey toyPrims wKey "pw" wSalt wIv).crypto.ciphertext)) ∧
    recomputedMac toyPrims wRec.crypto "pw" =
      hexEncode (toyPrims.hash (((decryptDk toyPrims wRec.crypto "pw").take 32).drop 16 ++
        hexDecode wRec.crypto.ciphertext)) ∧
    DecryptKeyV3 toyPrims wRec.crypto "pw" = Except.ok (hexEncode (aes128ctr toyPrims
      ((decryptDk toyPrims wRec.crypto "pw").take 16)
      (hexDecode wRec.crypto.cipherparams.iv)
      (hexDecode wRec.crypto.ciphertext))) := by
  obtain ⟨h1, h2, h3, h4, h5, h6⟩ :=
    derived_key_split_and_mac toyPrims wKey "pw" wSalt wIv
  exact ⟨h1, h2, h3, h4, h5 wRec.crypto,
    h6 wRec.crypto (by decide) (by decide) (by decide)⟩

theorem decryptV3_error_of_mac_mismatch (P : Prims) (c : CryptoJson)
    (passwd : String) (hc : c.cipher = "aes-128-ctr") (hk : c.kdf = "scrypt")
    (hm : recomputedMac P c passwd ≠ c.mac) :
    DecryptKeyV3 P c passwd = Except.error authFailed := by
  rw [DecryptKeyV3, DecryptKeyV3T, if_neg (by simp [hc]), if_neg (by simp [hk]),
    if_pos hm]

theorem hash_append_ne (P : Prims) (hinj : Function.Injective P.hash)
    (fp ct1 ct2 : List Nat) (hne : ct1 ≠ ct2)
    (h1 : ∀ b ∈ P.hash (fp ++ ct1), b < 256)
    (h2 : ∀ b ∈ P.hash (fp ++ ct2), b < 256) :
    hexEncode (P.hash (fp ++ ct1)) ≠ hexEncode (P.hash (fp ++ ct2)) := by
  intro heq
  exact hne (List.append_cancel_left (hinj (hexEncode_inj h1 h2 heq)))

theorem hash_prepend_ne (P : Prims) (hinj : Function.Injective P.hash)
    (fp1 fp2 ct : List Nat) (hne : fp1 ≠ fp2)
    (h1 : ∀ b ∈ P.hash (fp1 ++ ct), b < 256)
    (h2 : ∀ b ∈ P.hash (fp2 ++ ct), b < 256) :
    hexEncode (P.hash (fp1 ++ ct)) ≠ hexEncode (P.hash (fp2 ++ ct)) := by
  intro heq
  exact hne (List.append_cancel_right (hinj (hexEncode_inj h1 h2 heq)))

/-- C2 counterexample: the claim includes the iv among the tamper-detected
fields, but the stored mac covers only the MAC sub-key and the
ciphertext, not the iv.  Concretely: flipping bit 0 of byte 0 of the iv
of a freshly encrypted record does not make `DecryptKeyV3` fail with
AuthenticationFailed under the correct passphrase — it succeeds, and
silently returns a plaintext that is not the original private key. -/
theorem iv_tamper_not_detected :
    DecryptKeyV3 toyPrims (withIv wRec (hexEncode (flipBit wIv 0 0))).crypto "pw" ≠
      Except.error authFailed ∧
    (∃ s, DecryptKeyV3 toyPrims
      (withIv wRec (hexEncode (flipBit wIv 0 0))).crypto "pw" = Except.ok s) ∧
    DecryptKeyV3 toyPrims (withIv wRec (hexEncode (flipBit wIv 0 0))).crypto "pw" ≠
      Except.ok (hexEncode wKey.prvkey) := by
  refine ⟨by decide, ⟨hexEncode (aes128ctr toyPrims
    (jsSlice (decryptDk toyPrims (withIv wRec (hexEncode (flipBit wIv 0 0))).crypto "pw") 0 16)
    (hexDecode (withIv wRec (hexEncode (flipBit wIv 0 0))).crypto.cipherparams.iv)
    (hexDecode (withIv wRec (hexEncode (flipBit wIv 0 0))).crypto.ciphertext)), by decide⟩,
    by decide⟩

/-- C2 (amended): for a record freshly produced by `EncryptKey`, under
the correct passphrase, flipping any single bit of the raw ciphertext,
of the salt (provided the kdf's MAC sub-key actually changes with the
flipped salt — true except with negligible probability for scrypt), or
of the mac bytes makes `DecryptKeyV3` fail with the AuthenticationFailed
error; the hash is assumed collision-free (injective) as the ideal-model
reading of keccak.  A bit flip in the iv is NOT detected (see the
counterexample): the mac does not cover the iv. -/
theorem single_bit_tamper_detected (P : Prims) (k : KeyPair) (passwd : String)
    (salt iv : List Nat) (hk : ∀ b ∈ k.prvkey, b < 256)
    (hs : ∀ b ∈ salt, b < 256)
    (hinj : Function.Injective P.hash)
    (hmv : ∀ b ∈ encMacBytes P k passwd salt iv, b < 256) :
    (∀ j bit, bit < 8 → j < (encCt P k passwd salt iv).length →
      (∀ b ∈ P.hash (jsSlice (encDk P passwd salt) 16 32 ++
          flipBit (encCt P k passwd salt iv) j bit), b < 256) →
      DecryptKeyV3 P (withCiphertext (EncryptKey P k passwd salt iv)
        (hexEncode (flipBit (encCt P k passwd salt iv) j bit))).crypto passwd =
        Except.error authFailed) ∧
    (∀ j bit, bit < 8 → j < (encMacBytes P k passwd salt iv).length →
      DecryptKeyV3 P (withMac (EncryptKey P k passwd salt iv)
        (hexEncode (flipBit (encMacBytes P k passwd salt iv) j bit))).crypto passwd =
        Except.error authFailed) ∧
    (∀ j bit, bit < 8 → j < salt.length →
      jsSlice (encDk P passwd (flipBit salt j bit)) 16 32 ≠
        jsSlice (encDk P passwd salt) 16 32 →
      (∀ b ∈ P.hash (jsSlice (encDk P passwd (flipBit salt j bit)) 16 32 ++
          encCt P k passwd salt iv), b < 256) →
      DecryptKeyV3 P (withSalt (EncryptKey P k passwd salt iv)
        (hexEncode (flipBit salt j bit))).crypto passwd =
        Except.error authFailed) := by
  have hctv : ∀ b ∈ aes128ctr P
      (jsSlice (P.kdf passwd salt ScryptN ScryptR ScryptP ScryptDKLen) 0 16)
      iv k.prvkey, b < 256 :=
    aes128ctr_lt _ _ _ _ hk
  refine ⟨?_, ?_, ?_⟩
  · intro j bit hbit hj hv'
    have hct' : ∀ b ∈ flipBit (encCt P k passwd salt iv) j bit, b < 256 :=
      flipBit_lt _ _ _ hctv hbit
    apply decryptV3_error_of_mac_mismatch P _ passwd rfl rfl
    have e1 : recomputedMac P (withCiphertext (EncryptKey P k passwd salt iv)
        (hexEncode (flipBit (encCt P k passwd salt iv) j bit))).crypto passwd =
        hexEncode (P.hash (jsSlice (encDk P passwd salt) 16 32 ++
          flipBit (encCt P k passwd salt iv) j bit)) := by
      simp only [recomputedMac, decryptDk, withCiphertext, EncryptKey, encDk]
      rw [hexDecode_hexEncode salt hs, hexDecode_hexEncode _ hct']
    have e2 : (withCiphertext (EncryptKey P k passwd salt iv)
        (hexEncode (flipBit (encCt P k passwd salt iv) j bit))).crypto.mac =
        hexEncode (P.hash (jsSlice (encDk P passwd salt) 16 32 ++
          encCt P k passwd salt iv)) := by
      simp only [withCiphertext, EncryptKey, encCt, encDk]
      rw [hexDecode_hexEncode _ hctv]
    rw [e1, e2]
    exact hash_append_ne P hinj _ _ _ (flipBit_ne _ j bit hj) hv' hmv
  · intro j bit hbit hj
    have hmac' : ∀ b ∈ flipBit (encMacBytes P k passwd salt iv) j bit, b < 256 :=
      flipBit_lt _ _ _ hmv hbit
    apply decryptV3_error_of_mac_mismatch P _ passwd rfl rfl
    have e1 : recomputedMac P (withMac (EncryptKey P k passwd salt iv)
        (hexEncode (flipBit (encMacBytes P k passwd salt iv) j bit))).crypto passwd =
        hexEncode (encMacBytes P k passwd salt iv) := by
      simp only [recomputedMac, decryptDk, withMac, EncryptKey, encMacBytes,
        encCt, encDk]
      rw [hexDecode_hexEncode salt hs, hexDecode_hexEncode _ hctv]
    have e2 : (withMac (EncryptKey P k passwd salt iv)
        (hexEncode (flipBit (encMacBytes P k passwd salt iv) j bit))).crypto.mac =
        hexEncode (flipBit (encMacBytes P k passwd salt iv) j bit) := rfl
    rw [e1, e2]
    intro heq
    exact flipBit_ne _ j bit hj (hexEncode_inj hmac' hmv heq.symm)
  · intro j bit hbit hj hkdfne hv'
    have hsalt' : ∀ b ∈ flipBit salt j bit, b < 256 :=
      flipBit_lt _ _ _ hs hbit
    apply decryptV3_error_of_mac_mismatch P _ passwd rfl rfl
    have e1 : recomputedMac P (withSalt (EncryptKey P k passwd salt iv)
        (hexEncode (flipBit salt j bit))).crypto passwd =
        hexEncode (P.hash (jsSlice (encDk P passwd (flipBit salt j bit)) 16 32 ++
          encCt P k passwd salt iv)) := by
      simp only [recomputedMac, decryptDk, withSalt, EncryptKey, encCt, encDk]
      rw [hexDecode_hexEncode _ hsalt', hexDecode_hexEncode _ hctv]
    have e2 : (withSalt (EncryptKey P k passwd salt iv)
        (hexEncode (flipBit salt j bit))).crypto.mac =
        hexEncode (P.hash (jsSlice (encDk P passwd salt) 16 32 ++
          encCt P k passwd salt iv)) := by
      simp only [withSalt, EncryptKey, encCt, encDk]
      rw [hexDecode_hexEncode _ hctv]
    rw [e1, e2]
    exact hash_prepend_ne P hinj _ _ _ hkdfne hv' hmv

theorem single_bit_tamper_detected_witness :
    DecryptKeyV3 toyPrims (withCiphertext wRec
      (hexEncode (flipBit (encCt toyPrims wKey "pw" wSalt wIv) 0 0))).crypto "pw" =
      Except.error authFailed ∧
    DecryptKeyV3 toyPrims (withMac wRec
      (hexEncode (flipBit (encMacBytes toyPrims wKey "pw" wSalt wIv) 0 0))).crypto "pw" =
      Except.error authFailed ∧
    DecryptKeyV3 toyPrims (withSalt wRec
      (hexEncode (flipBit wSalt 16 0))).crypto "pw" =
      Except.error authFailed := by
  obtain ⟨h1, h2, h3⟩ := single_bit_tamper_detected toyPrims wKey "pw" wSalt wIv
    (by decide) (by decide) toyHash_inj (by decide)
  exact ⟨h1 0 0 (by decide) (by decide) (by decide),
    h2 0 0 (by decide) (by decide),
    h3 16 0 (by decide) (by decide) (by decide) (by decide)⟩

/-- C8: two `EncryptKey` calls on the same keypair and passphrase whose
entropy draws are fresh (distinct salts and distinct ivs, with distinct
CTR keystreams and a collision-free hash — the ideal-model reading of
"with overwhelming probability") never produce byte-identical records:
the salt, iv, ciphertext and mac fields all differ; yet each of the two
records decrypts back to the private key under the same passphrase. -/
theorem encrypt_nondeterministic_but_consistent (P : Prims) (k : KeyPair)
    (passwd : String) (s1 iv1 s2 iv2 : List Nat)
    (hk : ∀ b ∈ k.prvkey, b < 256)
    (hs1 : ∀ b ∈ s1, b < 256) (hs2 : ∀ b ∈ s2, b < 256)
    (hiv1 : ∀ b ∈ iv1, b < 256) (hiv2 : ∀ b ∈ iv2, b < 256)
    (hsne : s1 ≠ s2) (hivne : iv1 ≠ iv2)
    (hks : P.stream (jsSlice (encDk P passwd s1) 0 16) iv1 k.prvkey.length ≠
      P.stream (jsSlice (encDk P passwd s2) 0 16) iv2 k.prvkey.length)
    (hinj : Function.Injective P.hash)
    (hm1 : ∀ b ∈ encMacBytes P k passwd s1 iv1, b < 256)
    (hm2 : ∀ b ∈ encMacBytes P k passwd s2 iv2, b < 256) :
    EncryptKey P k passwd s1 iv1 ≠ EncryptKey P k passwd s2 iv2 ∧
    (EncryptKey P k passwd s1 iv1).crypto.kdfparams.salt ≠
      (EncryptKey P k passwd s2 iv2).crypto.kdfparams.salt ∧
    (EncryptKey P k passwd s1 iv1).crypto.cipherparams.iv ≠
      (EncryptKey P k passwd s2 iv2).crypto.cipherparams.iv ∧
    (EncryptKey P k passwd s1 iv1).crypto.ciphertext ≠
      (EncryptKey P k passwd s2 iv2).crypto.ciphertext ∧
    (EncryptKey P k passwd s1 iv1).crypto.mac ≠
      (EncryptKey P k passwd s2 iv2).crypto.mac ∧
    DecryptKeyV3 P (EncryptKey P k passwd s1 iv1).crypto passwd =
      Except.ok (hexEncode k.prvkey) ∧
    DecryptKeyV3 P (EncryptKey P k passwd s2 iv2).crypto passwd =
      Except.ok (hexEncode k.prvkey) := by
  have hct1v : ∀ b ∈ aes128ctr P
      (jsSlice (P.kdf passwd s1 ScryptN ScryptR ScryptP ScryptDKLen) 0 16)
      iv1 k.prvkey, b < 256 := aes128ctr_lt _ _ _ _ hk
  have hct2v : ∀ b ∈ aes128ctr P
      (jsSlice (P.kdf passwd s2 ScryptN ScryptR ScryptP ScryptDKLen) 0 16)
      iv2 k.prvkey, b < 256 := aes128ctr_lt _ _ _ _ hk
  have hctne : aes128ctr P (jsSlice (encDk P passwd s1) 0 16) iv1 k.prvkey ≠
      aes128ctr P (jsSlice (encDk P passwd s2) 0 16) iv2 k.prvkey := by
    intro h
    exact hks (zipWith_xor_left_cancel k.prvkey _ _
      (P.stream_len _ _ _) (P.stream_len _ _ _) h)
  have hsaltne : (EncryptKey P k passwd s1 iv1).crypto.kdfparams.salt ≠
      (EncryptKey P k passwd s2 iv2).crypto.kdfparams.salt := by
    show hexEncode s1 ≠ hexEncode s2
    intro h
    exact hsne (hexEncode_inj hs1 hs2 h)
  have hivne2 : (EncryptKey P k passwd s1 iv1).crypto.cipherparams.iv ≠
      (EncryptKey P k passwd s2 iv2).crypto.cipherparams.iv := by
    show hexEncode iv1 ≠ hexEncode iv2
    intro h
    exact hivne (hexEncode_inj hiv1 hiv2 h)
  have hctfne : (EncryptKey P k passwd s1 iv1).crypto.ciphertext ≠
      (EncryptKey P k passwd s2 iv2).crypto.ciphertext := by
    show hexEncode _ ≠ hexEncode _
    intro h
    exact hctne (hexEncode_inj hct1v hct2v h)
  have e_mac1 : (EncryptKey P k passwd s1 iv1).crypto.mac =
      hexEncode (encMacBytes P k passwd s1 iv1) := by
    simp only [EncryptKey, encMacBytes, encCt, encDk]
    rw [hexDecode_hexEncode _ hct1v]
  have e_mac2 : (EncryptKey P k passwd s2 iv2).crypto.mac =
      hexEncode (encMacBytes P k passwd s2 iv2) := by
    simp only [EncryptKey, encMacBytes, encCt, encDk]
    rw [hexDecode_hexEncode _ hct2v]
  have hmacne : (EncryptKey P k passwd s1 iv1).crypto.mac ≠
      (EncryptKey P k passwd s2 iv2).crypto.mac := by
    rw [e_mac1, e_mac2]
    intro h
    have hlist := hinj (hexEncode_inj hm1 hm2 h)
    have hlen : (aes128ctr P (jsSlice (encDk P passwd s1) 0 16) iv1 k.prvkey).length =
        (aes128ctr P (jsSlice (encDk P passwd s2) 0 16) iv2 k.prvkey).length := by
      rw [length_aes128ctr, length_aes128ctr]
    exact hctne (List.append_inj_right' hlist hlen)
  refine ⟨?_, hsaltne, hivne2, hctfne, hmacne,
    decrypt_encrypt_v3 P k passwd s1 iv1 hk hs1 hiv1,
    decrypt_encrypt_v3 P k passwd s2 iv2 hk hs2 hiv2⟩
  intro h
  exact hsaltne (congrArg (fun r => r.crypto.kdfparams.salt) h)

theorem encrypt_nondeterministic_but_consistent_witness :
    EncryptKey toyPrims wKey "pw" wSalt wIv ≠ EncryptKey toyPrims wKey "pw" wSalt2 wIv2 ∧
    (EncryptKey toyPrims wKey "pw" wSalt wIv).crypto.kdfparams.salt ≠
      (EncryptKey toyPrims wKey "pw" wSalt2 wIv2).crypto.kdfparams.salt ∧
    (EncryptKey toyPrims wKey "pw" wSalt wIv).crypto.cipherparams.iv ≠
      (EncryptKey toyPrims wKey "pw" wSalt2 wIv2).crypto.cipherparams.iv ∧
    (EncryptKey toyPrims wKey "pw" wSalt wIv).crypto.ciphertext ≠
      (EncryptKey toyPrims wKey "pw" wSalt2 wIv2).crypto.ciphertext ∧
    (EncryptKey toyPrims wKey "pw" wSalt wIv).crypto.mac ≠
      (EncryptKey toyPrims wKey "pw" wSalt2 wIv2).crypto.mac ∧
    DecryptKeyV3 toyPrims (EncryptKey toyPrims wKey "pw" wSalt wIv).crypto "pw" =
      Except.ok (hexEncode wKey.prvkey) ∧
    DecryptKeyV3 toyPrims (EncryptKey toyPrims wKey "pw" wSalt2 wIv2).crypto "pw" =
      Except.ok (hexEncode wKey.prvkey) :=
  encrypt_nondeterministic_but_consistent toyPrims wKey "pw" wSalt wIv wSalt2 wIv2
    (by decide) (by decide) (by decide) (by decide) (by decide)
    (by decide) (by decide) (by decide) toyHash_inj (by decide) (by decide)

/-- C9: on success `DecryptKeyV3` returns the recovered private key as a
lowercase hex-encoded string — twice the byte length, every character a
lowercase hex digit — not as raw bytes, and `DecryptKey` consumes the
JSON text of the record (it runs the host's `JSON.parse` on its string
argument), while `EncryptKey` returns an unserialized record object: the
consumer serializes before round-tripping and hex-decodes the returned
string to obtain the original 32 key bytes. -/
theorem decrypt_returns_lowercase_hex (parse : String → Option KeystoreRecord)
    (P : Prims) (k : KeyPair) (passwd : String) (salt iv : List Nat)
    (hk : ∀ b ∈ k.prvkey, b < 256) (hs : ∀ b ∈ salt, b < 256)
    (hiv : ∀ b ∈ iv, b < 256)
    (hparse : parse (serializeKey (EncryptKey P k passwd salt iv)) =
      some (EncryptKey P k passwd salt iv)) :
    DecryptKey parse P (serializeKey (EncryptKey P k passwd salt iv)) passwd =
      Except.ok (hexEncode k.prvkey) ∧
    (∀ c ∈ (hexEncode k.prvkey).data, c ∈ "0123456789abcdef".data) ∧
    (hexEncode k.prvkey).length = 2 * k.prvkey.length ∧
    hexDecode (hexEncode k.prvkey) = k.prvkey :=
  ⟨by rw [DecryptKey, decryptKeyT_encrypt parse P k passwd salt iv hk hs hiv hparse],
   hexEncode_lower _ hk, hexEncode_length _, hexDecode_hexEncode _ hk⟩

theorem decrypt_returns_lowercase_hex_witness :
    DecryptKey toyParse toyPrims (serializeKey wRec) "pw" =
      Except.ok (hexEncode wKey.prvkey) ∧
    (∀ c ∈ (hexEncode wKey.prvkey).data, c ∈ "0123456789abcdef".data) ∧
    (hexEncode wKey.prvkey).length = 2 * wKey.prvkey.length ∧
    hexDecode (hexEncode wKey.prvkey) = wKey.prvkey :=
  decrypt_returns_lowercase_hex toyParse toyPrims wKey "pw" wSalt wIv
    (by decide) (by decide) (by decide) (by simp [toyParse, wRec])

end Keystore
